import Mathlib

/-!
Verification of the lsj-websec-automation toolkit against its
natural-language specification.  Each Python function relevant to a claim
is shallowly embedded as an executable Lean definition; network I/O is
abstracted as explicit lists of per-request outcomes (`Option` encodes a
request that raised an exception and was swallowed by the code's
per-request `except` handler).
-/

namespace LsjWebsec

/- ## Advanced report generator: `_get_severity_info`
   (src/tools/advanced_report_generator.py, lines 14-23)

   Python:
     if count == 0: return ("安全", "#28a745", "OK")
     elif count <= 3: return ("低危", "#ffc107", "LOW")
     elif count <= 10: return ("中危", "#fd7e14", "MED")
     else: return ("高危", "#dc3545", "HIGH")
   The count is a Python `int`, so we embed it as `Int`. -/

def getSeverityInfo (count : Int) : String × String × String :=
  if count = 0 then ("安全", "#28a745", "OK")
  else if count ≤ 3 then ("低危", "#ffc107", "LOW")
  else if count ≤ 10 then ("中危", "#fd7e14", "MED")
  else ("高危", "#dc3545", "HIGH")

/- ## Browser session manager: `_add_to_cache`
   (src/utils/browser.py, lines 253-258)

   Python:
     cache_list.append(item)
     if len(cache_list) > self.max_cache_size:
         cache_list.pop(0)
   with `max_cache_size = 1000`.  `pop(0)` removes the oldest entry, i.e.
   the head of the list. -/

def maxCacheSize : Nat := 1000

def addToCache {α : Type} (cap : Nat) (cacheList : List α) (item : α) : List α :=
  let c := cacheList ++ [item]
  if c.length > cap then c.tail else c

/-- Feeding a whole sequence of insertions into an initially empty cache. -/
def fillCache {α : Type} (cap : Nat) (items : List α) : List α :=
  items.foldl (addToCache cap) []

/- ## Advanced fuzzing strategy: auto-calibration
   (src/tools/advanced_scanner.py, lines 308-356)

   `_auto_calibrate` issues three GET probes to nonexistent-looking paths;
   each probe either yields a response (status code, content length, text)
   or raises and is swallowed by the bare `except: pass`.  We embed the
   network as the list of per-probe outcomes, `none` meaning the request
   raised.  The Python builds a record from the FIRST successful response
   (`responses[0]`), storing `text[:500]` at probe time and `content[:100]`
   as the pattern; an empty response list yields the empty dict, embedded
   as `none`. -/

structure HttpResponse where
  statusCode : Nat
  contentLength : Nat
deriving Repr, DecidableEq

structure CalResponse where
  statusCode : Nat
  contentLength : Nat
  text : String
deriving Repr, DecidableEq

structure CalibrationData where
  statusCode : Nat
  contentLength : Nat
  pattern : String
deriving Repr, DecidableEq

def autoCalibrate (probes : List (Option CalResponse)) : Option CalibrationData :=
  let responses := probes.filterMap (fun o =>
    o.map (fun r => CalResponse.mk r.statusCode r.contentLength (r.text.take 500)))
  match responses with
  | [] => none
  | r :: _ => some (CalibrationData.mk r.statusCode r.contentLength (r.text.take 100))

/- `_should_filter(response, calibration_data)`:
     if not calibration_data: return False
     if (response.status_code == calibration_data.get("status_code") and
         abs(len(response.content) - calibration_data.get("content_length", 0)) < 50):
         return True
     return False -/

def shouldFilter (response : HttpResponse) (calibrationData : Option CalibrationData) : Bool :=
  match calibrationData with
  | none => false
  | some cal =>
    if response.statusCode = cal.statusCode ∧
        ((response.contentLength : Int) - (cal.contentLength : Int)).natAbs < 50 then
      true
    else
      false

/- ## Auth scanner: `test_idor_vulnerability`
   (src/tools/auth_scanner.py, lines 121-195)

   The sweep issues one GET per id in the range; we embed each request's
   outcome (status code, or `none` when the request raised and the
   per-request `except` swallowed it).  An id is appended to
   `accessible_ids`, and a result record to `results`, exactly when the
   response status is 200.  The report truncates `accessible_ids` and
   `results` to the first 20 entries while `accessible_count`,
   `vulnerable` (`len(accessible_ids) > 1`) and `severity` are computed
   from the untruncated lists. -/

structure IdorProbe where
  testId : Nat
  statusCode : Option Nat
  contentLength : Nat
deriving Repr, DecidableEq

structure IdorResultEntry where
  testId : Nat
  statusCode : Nat
  contentLength : Nat
  accessible : Bool
deriving Repr, DecidableEq

structure IdorReport where
  success : Bool
  accessibleCount : Nat
  vulnerable : Bool
  severity : String
  accessibleIds : List Nat
  results : List IdorResultEntry
deriving Repr, DecidableEq

def idorAccessibleIds (probes : List IdorProbe) : List Nat :=
  probes.filterMap (fun p => if p.statusCode = some 200 then some p.testId else none)

def idorResults (probes : List IdorProbe) : List IdorResultEntry :=
  probes.filterMap (fun p =>
    if p.statusCode = some 200 then
      some (IdorResultEntry.mk p.testId 200 p.contentLength true)
    else
      none)

def test_idor_vulnerability (probes : List IdorProbe) : IdorReport :=
  let accessibleIds := idorAccessibleIds probes
  let vulnerable := decide (1 < accessibleIds.length)
  { success := true
    accessibleCount := accessibleIds.length
    vulnerable := vulnerable
    severity := if vulnerable then "高" else "无"
    accessibleIds := accessibleIds.take 20
    results := (idorResults probes).take 20 }

/- ## Browser session manager: `close`
   (src/utils/browser.py, lines 76-89)

   Python:
     if self.page:       await self.page.close()
     if self.context:    await self.context.close()
     if self.browser:    await self.browser.close()
     if self.playwright: await self.playwright.stop()
   There is no per-step exception handling: an exception raised by one of
   the awaited teardown calls propagates out of `close` and the remaining
   steps are never reached.  We embed the state as presence flags for the
   four handles and the environment as a predicate saying which teardown
   calls raise; `close` returns the list of teardown calls actually
   attempted (in order, including the raising one) together with a flag
   recording whether an exception propagated. -/

inductive TeardownStep where
  | page
  | browserContext
  | browserEngine
  | playwrightDriver
deriving Repr, DecidableEq, Fintype

structure BrowserHandles where
  hasPage : Bool
  hasContext : Bool
  hasBrowser : Bool
  hasPlaywright : Bool
deriving Repr, DecidableEq, Fintype

def close (h : BrowserHandles) (fails : TeardownStep → Bool) :
    List TeardownStep × Bool :=
  if h.hasPage ∧ fails TeardownStep.page then ([TeardownStep.page], true)
  else
    let a1 := if h.hasPage then [TeardownStep.page] else []
    if h.hasContext ∧ fails TeardownStep.browserContext then
      (a1 ++ [TeardownStep.browserContext], true)
    else
      let a2 := a1 ++ (if h.hasContext then [TeardownStep.browserContext] else [])
      if h.hasBrowser ∧ fails TeardownStep.browserEngine then
        (a2 ++ [TeardownStep.browserEngine], true)
      else
        let a3 := a2 ++ (if h.hasBrowser then [TeardownStep.browserEngine] else [])
        if h.hasPlaywright ∧ fails TeardownStep.playwrightDriver then
          (a3 ++ [TeardownStep.playwrightDriver], true)
        else
          (a3 ++ (if h.hasPlaywright then [TeardownStep.playwrightDriver] else []), false)

/-- The present handles in the source's teardown order. -/
def teardownOrder (h : BrowserHandles) : List TeardownStep :=
  (if h.hasPage then [TeardownStep.page] else []) ++
  (if h.hasContext then [TeardownStep.browserContext] else []) ++
  (if h.hasBrowser then [TeardownStep.browserEngine] else []) ++
  (if h.hasPlaywright then [TeardownStep.playwrightDriver] else [])

/-- Reference semantics of a fail-fast sequence of teardown calls: attempt
each step in order, stopping at (and including) the first one that raises. -/
def runTeardown (fails : TeardownStep → Bool) : List TeardownStep → List TeardownStep × Bool
  | [] => ([], false)
  | s :: rest =>
    if fails s then ([s], true)
    else
      let r := runTeardown fails rest
      (s :: r.1, r.2)

/- ## HTTP scanning toolkit: `discover_api_endpoints`
   (src/tools/web_scanner.py, lines 352-391)

   For each of the six candidate paths the code issues a HEAD request; if
   that raises, the bare `except` skips the path.  When the HEAD status is
   `>= 400 or == 405` it falls back to a GET (whose exception likewise
   skips the path); the recorded entry carries the final status, content
   type and content length.  The returned `found` field is
     sum(1 for r in results if r.get("status_code", 0) < 400)
   while the set {200, 201, 204, 301, 302, 307, 308} only gates an
   info-level log line. -/

structure HeadResponse where
  statusCode : Nat
  contentType : String
  contentLengthHeader : Nat
deriving Repr, DecidableEq

structure GetResponse where
  statusCode : Nat
  contentType : String
  contentLength : Nat
deriving Repr, DecidableEq

structure ProbeOutcome where
  headResult : Option HeadResponse
  getResult : Option GetResponse
deriving Repr, DecidableEq

structure EndpointRecord where
  statusCode : Nat
  contentType : String
  contentLength : Nat
deriving Repr, DecidableEq

def probeEndpoint (o : ProbeOutcome) : Option EndpointRecord :=
  match o.headResult with
  | none => none
  | some h =>
    if 400 ≤ h.statusCode ∨ h.statusCode = 405 then
      match o.getResult with
      | none => none
      | some g => some (EndpointRecord.mk g.statusCode g.contentType g.contentLength)
    else
      some (EndpointRecord.mk h.statusCode h.contentType h.contentLengthHeader)

structure DiscoverApiResult where
  success : Bool
  found : Nat
  results : List EndpointRecord
deriving Repr, DecidableEq

def discover_api_endpoints (outcomes : List ProbeOutcome) : DiscoverApiResult :=
  let results := outcomes.filterMap probeEndpoint
  { success := true
    found := (results.filter (fun r => decide (r.statusCode < 400))).length
    results := results }

/-- Membership in the status set the spec names for "found" paths (the set
that in the source only gates the log line). -/
def specFoundStatus (status : Nat) : Bool :=
  decide (status = 200 ∨ status = 201 ∨ status = 204 ∨
    status = 301 ∨ status = 302 ∨ status = 307 ∨ status = 308)

/- ## Compatibility patch: `_remove_additional_properties` / `clean_parameters`
   (src/utils/patch_autogen.py, lines 13-66)

   JSON values as passed around the schema-stripping walk: Python dicts
   (ordered key/value lists with string keys), lists, and scalar leaves.
   We embed numbers as integers; the walk never inspects scalars, so this
   loses nothing for these claims.

   The Python walk over a dict skips any entry whose key is
   `additionalProperties`, counting ONE removal for the entry and dropping
   its whole value without descending into it; other entries have their
   value cleaned recursively, accumulating the child counts.  Lists are
   mapped elementwise. -/

inductive JValue where
  | jnull : JValue
  | jbool (b : Bool) : JValue
  | jnum (n : Int) : JValue
  | jstr (s : String) : JValue
  | jarr (elems : List JValue) : JValue
  | jobj (fields : List (String × JValue)) : JValue
deriving Repr, Inhabited

mutual

def removeAP : JValue → JValue × Nat
  | .jnull => (.jnull, 0)
  | .jbool b => (.jbool b, 0)
  | .jnum n => (.jnum n, 0)
  | .jstr s => (.jstr s, 0)
  | .jarr elems =>
    let r := removeAPList elems
    (.jarr r.1, r.2)
  | .jobj fields =>
    let r := removeAPFields fields
    (.jobj r.1, r.2)

def removeAPList : List JValue → List JValue × Nat
  | [] => ([], 0)
  | v :: rest =>
    let rv := removeAP v
    let rr := removeAPList rest
    (rv.1 :: rr.1, rv.2 + rr.2)

def removeAPFields : List (String × JValue) → List (String × JValue) × Nat
  | [] => ([], 0)
  | (k, v) :: rest =>
    let rr := removeAPFields rest
    if k = "additionalProperties" then (rr.1, 1 + rr.2)
    else
      let rv := removeAP v
      ((k, rv.1) :: rr.1, rv.2 + rr.2)

end

/-- `clean_parameters` returns the cleaned structure and drops the count. -/
def clean_parameters (parameters : JValue) : JValue :=
  (removeAP parameters).1

mutual

/-- Total number of occurrences of the key `additionalProperties` anywhere
in the value, including occurrences nested inside the value mapped by
another `additionalProperties` key. -/
def countAP : JValue → Nat
  | .jarr elems => countAPList elems
  | .jobj fields => countAPFields fields
  | _ => 0

def countAPList : List JValue → Nat
  | [] => 0
  | v :: rest => countAP v + countAPList rest

def countAPFields : List (String × JValue) → Nat
  | [] => 0
  | (k, v) :: rest =>
    (if k = "additionalProperties" then 1 else 0) + countAP v + countAPFields rest

end

mutual

/-- No occurrence of the key sits inside the value mapped by another
`additionalProperties` key. -/
def noNestedAP : JValue → Bool
  | .jarr elems => noNestedAPList elems
  | .jobj fields => noNestedAPFields fields
  | _ => true

def noNestedAPList : List JValue → Bool
  | [] => true
  | v :: rest => noNestedAP v && noNestedAPList rest

def noNestedAPFields : List (String × JValue) → Bool
  | [] => true
  | (k, v) :: rest =>
    (if k = "additionalProperties" then decide (countAP v = 0) else noNestedAP v)
      && noNestedAPFields rest

end

/- ## Report generator: `generate_json_report`
   (src/tools/report_generator.py, lines 258-280)

   The function dumps the session results verbatim:
     json.dump(scan_results, f, ensure_ascii=False, indent=2)
   We embed the file content produced by that call: Python's serializer
   with a 2-space indent, `", "`-free separators (`',' + newline` between
   items, `': '` between key and value), two-character escapes for
   backslash, quote and the control characters \b \t \n \f \r, a \u00xx
   escape for the remaining control characters below 0x20, and all other
   characters (including non-ASCII) written literally.  JSON numbers are
   embedded as integers (the session structures hold ints; floats are out
   of scope of this embedding). -/

def lbrace : Char := Char.ofNat 123

def rbrace : Char := Char.ofNat 125

def isWsChar (c : Char) : Bool :=
  decide (c.toNat = 32 ∨ c.toNat = 9 ∨ c.toNat = 10 ∨ c.toNat = 13)

def isDigitChar (c : Char) : Bool :=
  decide (48 ≤ c.toNat ∧ c.toNat ≤ 57)

def digitChar (n : Nat) : Char := Char.ofNat (48 + n)

def hexDigitChar (n : Nat) : Char :=
  if n < 10 then Char.ofNat (48 + n) else Char.ofNat (87 + n)

def natToChars (n : Nat) : List Char :=
  if n < 10 then [digitChar n]
  else natToChars (n / 10) ++ [digitChar (n % 10)]
termination_by n
decreasing_by
  have : ¬ n < 10 := by assumption
  omega

def intToChars (n : Int) : List Char :=
  if n < 0 then '-' :: natToChars n.natAbs else natToChars n.natAbs

def escapeChar (c : Char) : List Char :=
  if c = '"' then ['\\', '"']
  else if c = '\\' then ['\\', '\\']
  else if c.toNat = 8 then ['\\', 'b']
  else if c.toNat = 9 then ['\\', 't']
  else if c.toNat = 10 then ['\\', 'n']
  else if c.toNat = 12 then ['\\', 'f']
  else if c.toNat = 13 then ['\\', 'r']
  else if c.toNat < 32 then
    ['\\', 'u', '0', '0', hexDigitChar (c.toNat / 16), hexDigitChar (c.toNat % 16)]
  else [c]

def escChars : List Char → List Char
  | [] => []
  | c :: cs => escapeChar c ++ escChars cs

def indentChars (k : Nat) : List Char := List.replicate (2 * k) ' '

mutual

def serValue (k : Nat) : JValue → List Char
  | .jnull => ['n', 'u', 'l', 'l']
  | .jbool true => ['t', 'r', 'u', 'e']
  | .jbool false => ['f', 'a', 'l', 's', 'e']
  | .jnum n => intToChars n
  | .jstr s => '"' :: (escChars s.data ++ ['"'])
  | .jarr [] => ['[', ']']
  | .jarr (x :: xs) =>
    '[' :: ('\n' :: (indentChars (k + 1) ++ (serValue (k + 1) x ++
      (serArrRest (k + 1) xs ++ ('\n' :: (indentChars k ++ [']']))))))
  | .jobj [] => [lbrace, rbrace]
  | .jobj (f :: fs) =>
    lbrace :: ('\n' :: (indentChars (k + 1) ++ (serField (k + 1) f ++
      (serObjRest (k + 1) fs ++ ('\n' :: (indentChars k ++ [rbrace]))))))

def serField (k : Nat) : String × JValue → List Char
  | (key, v) => '"' :: (escChars key.data ++ ('"' :: (':' :: (' ' :: serValue k v))))

def serArrRest (k : Nat) : List JValue → List Char
  | [] => []
  | x :: xs => ',' :: ('\n' :: (indentChars k ++ (serValue k x ++ serArrRest k xs)))

def serObjRest (k : Nat) : List (String × JValue) → List Char
  | [] => []
  | f :: fs => ',' :: ('\n' :: (indentChars k ++ (serField k f ++ serObjRest k fs)))

end

/-- The text `generate_json_report` writes: `json.dump` of the session
results with `ensure_ascii=False, indent=2`, at top indent level 0. -/
def jsonDumps (scanResults : JValue) : String := String.mk (serValue 0 scanResults)

def generate_json_report (scanResults : JValue) : String := jsonDumps scanResults

/- Reading the written file back as JSON.  Modelled from the spec: the
parser (`json.loads`) is the Python standard library's, not code of this
repository; this is a standard whitespace-skipping recursive-descent JSON
reader over the same value space (numbers restricted to integers, as in
the serializer). -/

def skipWs : List Char → List Char
  | [] => []
  | c :: cs => if isWsChar c then skipWs cs else c :: cs

def expectPrefix : List Char → List Char → Option (List Char)
  | [], s => some s
  | _ :: _, [] => none
  | p :: ps, c :: cs => if c = p then expectPrefix ps cs else none

def hexVal (c : Char) : Option Nat :=
  if 48 ≤ c.toNat ∧ c.toNat ≤ 57 then some (c.toNat - 48)
  else if 97 ≤ c.toNat ∧ c.toNat ≤ 102 then some (c.toNat - 87)
  else if 65 ≤ c.toNat ∧ c.toNat ≤ 70 then some (c.toNat - 55)
  else none

def parseStringBody : List Char → Option (List Char × List Char)
  | [] => none
  | c :: cs =>
    if c = '"' then some ([], cs)
    else if c = '\\' then
      match cs with
      | [] => none
      | e :: cs2 =>
        if e = '"' then (parseStringBody cs2).map (fun p => ('"' :: p.1, p.2))
        else if e = '\\' then (parseStringBody cs2).map (fun p => ('\\' :: p.1, p.2))
        else if e = '/' then (parseStringBody cs2).map (fun p => ('/' :: p.1, p.2))
        else if e = 'b' then (parseStringBody cs2).map (fun p => (Char.ofNat 8 :: p.1, p.2))
        else if e = 'f' then (parseStringBody cs2).map (fun p => (Char.ofNat 12 :: p.1, p.2))
        else if e = 'n' then (parseStringBody cs2).map (fun p => (Char.ofNat 10 :: p.1, p.2))
        else if e = 'r' then (parseStringBody cs2).map (fun p => (Char.ofNat 13 :: p.1, p.2))
        else if e = 't' then (parseStringBody cs2).map (fun p => (Char.ofNat 9 :: p.1, p.2))
        else if e = 'u' then
          match cs2 with
          | h1 :: h2 :: h3 :: h4 :: cs3 =>
            match hexVal h1, hexVal h2, hexVal h3, hexVal h4 with
            | some a, some b, some c2, some d2 =>
              if ((a * 16 + b) * 16 + c2) * 16 + d2 < 55296 then
                (parseStringBody cs3).map
                  (fun p => (Char.ofNat (((a * 16 + b) * 16 + c2) * 16 + d2) :: p.1, p.2))
              else none
            | _, _, _, _ => none
          | _ => none
        else none
    else if 32 ≤ c.toNat then (parseStringBody cs).map (fun p => (c :: p.1, p.2))
    else none

def parseNatAux : List Char → Nat → Nat × List Char
  | [], acc => (acc, [])
  | c :: cs, acc =>
    if isDigitChar c then parseNatAux cs (10 * acc + (c.toNat - 48)) else (acc, c :: cs)

/-- Body of the value parser, over input whose leading whitespace has been
skipped; the element/member sub-parsers are passed in explicitly. -/
def pvBody (pe : List Char → Option (List JValue × List Char))
    (pm : List Char → Option (List (String × JValue) × List Char)) :
    List Char → Option (JValue × List Char)
  | [] => none
  | c :: cs =>
    if c = 'n' then (expectPrefix ['u', 'l', 'l'] cs).map (fun r => (JValue.jnull, r))
    else if c = 't' then (expectPrefix ['r', 'u', 'e'] cs).map (fun r => (JValue.jbool true, r))
    else if c = 'f' then
      (expectPrefix ['a', 'l', 's', 'e'] cs).map (fun r => (JValue.jbool false, r))
    else if c = '"' then (parseStringBody cs).map (fun p => (JValue.jstr (String.mk p.1), p.2))
    else if c = '[' then
      match skipWs cs with
      | [] => none
      | d :: r2 =>
        if d = ']' then some (JValue.jarr [], r2)
        else (pe (d :: r2)).map (fun p => (JValue.jarr p.1, p.2))
    else if c = lbrace then
      match skipWs cs with
      | [] => none
      | d :: r2 =>
        if d = rbrace then some (JValue.jobj [], r2)
        else (pm (d :: r2)).map (fun p => (JValue.jobj p.1, p.2))
    else if c = '-' then
      match cs with
      | [] => none
      | d :: ds =>
        if isDigitChar d then
          some (JValue.jnum (-((parseNatAux ds (d.toNat - 48)).1 : Int)),
            (parseNatAux ds (d.toNat - 48)).2)
        else none
    else if isDigitChar c then
      some (JValue.jnum ((parseNatAux cs (c.toNat - 48)).1 : Int),
        (parseNatAux cs (c.toNat - 48)).2)
    else none

/-- Body of the array-element loop: parse a value, then a `,` to continue
or a `]` to finish. -/
def peBody (pv : List Char → Option (JValue × List Char))
    (pes : List Char → Option (List JValue × List Char))
    (input : List Char) : Option (List JValue × List Char) :=
  match pv input with
  | none => none
  | some (v, r) =>
    match skipWs r with
    | [] => none
    | d :: r2 =>
      if d = ',' then
        match pes r2 with
        | none => none
        | some (vs, r3) => some (v :: vs, r3)
      else if d = ']' then some ([v], r2)
      else none

/-- Body of the object-member loop: parse a quoted key, `:`, a value, then
a `,` to continue or a closing brace to finish. -/
def pmBody (pv : List Char → Option (JValue × List Char))
    (pms : List Char → Option (List (String × JValue) × List Char)) :
    List Char → Option (List (String × JValue) × List Char)
  | [] => none
  | c :: cs =>
    if c = '"' then
      match parseStringBody cs with
      | none => none
      | some (key, r2) =>
        match skipWs r2 with
        | [] => none
        | d :: r3 =>
          if d = ':' then
            match pv r3 with
            | none => none
            | some (v, r4) =>
              match skipWs r4 with
              | [] => none
              | d2 :: r5 =>
                if d2 = ',' then
                  match pms r5 with
                  | none => none
                  | some (fs, r6) => some ((String.mk key, v) :: fs, r6)
                else if d2 = rbrace then some ([(String.mk key, v)], r5)
                else none
          else none
    else none

mutual

def parseValue : Nat → List Char → Option (JValue × List Char)
  | 0, _ => none
  | fuel + 1, input => pvBody (parseElems fuel) (parseMembers fuel) (skipWs input)

def parseElems : Nat → List Char → Option (List JValue × List Char)
  | 0, _ => none
  | fuel + 1, input => peBody (parseValue fuel) (parseElems fuel) input

def parseMembers : Nat → List Char → Option (List (String × JValue) × List Char)
  | 0, _ => none
  | fuel + 1, input => pmBody (parseValue fuel) (parseMembers fuel) (skipWs input)

end

def jsonLoads (s : String) : Option JValue :=
  match parseValue (s.data.length + 1) s.data with
  | some (v, r) => if skipWs r = [] then some v else none
  | none => none

/- Fuel bound: a structural size of the JSON value dominating the parser
fuel its serialization needs. -/

mutual

def jsize : JValue → Nat
  | .jarr elems => jsizeList elems + 1
  | .jobj fields => jsizeFields fields + 1
  | _ => 1

def jsizeList : List JValue → Nat
  | [] => 0
  | v :: rest => jsize v + jsizeList rest + 1

def jsizeFields : List (String × JValue) → Nat
  | [] => 0
  | f :: rest => jsize f.2 + jsizeFields rest + 1

end

/-- A rest-input constraint ruling out a digit right after a serialized
number (everything the serializer puts after a value satisfies it). -/
def okTail : List Char → Prop
  | [] => True
  | c :: _ => isDigitChar c = false

/-- A schema with `additionalProperties` at three depths, none nested under
another occurrence, for the C7 witness. -/
def apWitnessSchema : JValue :=
  JValue.jobj
    [("type", JValue.jstr "object"),
     ("additionalProperties", JValue.jbool false),
     ("properties", JValue.jobj
       [("inner", JValue.jobj
         [("additionalProperties", JValue.jbool false),
          ("items", JValue.jarr
            [JValue.jobj [("additionalProperties", JValue.jbool true)]])])])]

/-- Twenty-one probes that all answer 200, for the C10 witness. -/
def idorManyProbes : List IdorProbe :=
  (List.range 21).map (fun i => IdorProbe.mk i (some 200) 5)

/- ## Helper lemmas -/

theorem addToCache_of_lt {α : Type} (cap : Nat) (cacheList : List α) (item : α)
    (h : cacheList.length + 1 ≤ cap) :
    addToCache cap cacheList item = cacheList ++ [item] := by
  simp [addToCache]
  omega

theorem addToCache_of_full {α : Type} (cap : Nat) (cacheList : List α) (item : α)
    (h : cap < cacheList.length + 1) :
    addToCache cap cacheList item = (cacheList ++ [item]).tail := by
  simp only [addToCache]
  rw [if_pos]
  simp
  omega

theorem fillCache_eq_drop {α : Type} (cap : Nat) (items : List α) :
    fillCache cap items = items.drop (items.length - cap) := by
  induction items using List.reverseRecOn with
  | nil => simp [fillCache]
  | append_singleton xs x ih =>
    have hfold : fillCache cap (xs ++ [x]) = addToCache cap (fillCache cap xs) x := by
      simp [fillCache]
    rw [hfold, ih]
    have hdlen : (xs.drop (xs.length - cap)).length = xs.length - (xs.length - cap) :=
      List.length_drop _ _
    by_cases hlt : xs.length + 1 ≤ cap
    · rw [addToCache_of_lt]
      · have h1 : xs.length - cap = 0 := by omega
        have h2 : xs.length + 1 - cap = 0 := by omega
        simp [h1, h2]
      · rw [hdlen]; omega
    · rw [addToCache_of_full]
      · rcases Nat.eq_zero_or_pos cap with hc | hc
        · subst hc
          have h0 : xs.length - 0 = xs.length := by omega
          rw [h0, List.drop_length]
          have h1 : (xs ++ [x]).length - 0 = (xs ++ [x]).length := by omega
          rw [h1, List.drop_length]
          rfl
        · have htail : (xs.drop (xs.length - cap) ++ [x]).tail
              = (xs.drop (xs.length - cap)).tail ++ [x] := by
            rcases hd : xs.drop (xs.length - cap) with _ | ⟨y, ys⟩
            · exfalso
              have := congrArg List.length hd
              rw [hdlen] at this
              simp at this
              omega
            · rfl
          rw [htail, List.tail_drop]
          have hle : (xs ++ [x]).length - cap ≤ xs.length := by simp; omega
          rw [List.drop_append_of_le_length hle]
          have harith : xs.length - cap + 1 = (xs ++ [x]).length - cap := by simp; omega
          rw [harith]
      · rw [hdlen]; omega

theorem fillCache_length {α : Type} (cap : Nat) (items : List α) :
    (fillCache cap items).length = min items.length cap := by
  rw [fillCache_eq_drop, List.length_drop]
  omega

mutual

theorem removeAP_clean (j : JValue) : countAP (removeAP j).1 = 0 := by
  cases j with
  | jnull => rfl
  | jbool b => rfl
  | jnum n => rfl
  | jstr s => rfl
  | jarr elems =>
    show countAPList (removeAPList elems).1 = 0
    exact removeAPList_clean elems
  | jobj fields =>
    show countAPFields (removeAPFields fields).1 = 0
    exact removeAPFields_clean fields

theorem removeAPList_clean (elems : List JValue) :
    countAPList (removeAPList elems).1 = 0 := by
  cases elems with
  | nil => rfl
  | cons v rest =>
    show countAP (removeAP v).1 + countAPList (removeAPList rest).1 = 0
    rw [removeAP_clean v, removeAPList_clean rest]

theorem removeAPFields_clean (fields : List (String × JValue)) :
    countAPFields (removeAPFields fields).1 = 0 := by
  cases fields with
  | nil => rfl
  | cons f rest =>
    obtain ⟨k, v⟩ := f
    by_cases hk : k = "additionalProperties"
    · show countAPFields (removeAPFields ((k, v) :: rest)).1 = 0
      simp only [removeAPFields, if_pos hk]
      exact removeAPFields_clean rest
    · show countAPFields (removeAPFields ((k, v) :: rest)).1 = 0
      simp only [removeAPFields, if_neg hk]
      show (if k = "additionalProperties" then 1 else 0) + countAP (removeAP v).1
          + countAPFields (removeAPFields rest).1 = 0
      rw [if_neg hk, removeAP_clean v, removeAPFields_clean rest]

end

mutual

theorem removeAP_of_clean (j : JValue) (h : countAP j = 0) : removeAP j = (j, 0) := by
  cases j with
  | jnull => rfl
  | jbool b => rfl
  | jnum n => rfl
  | jstr s => rfl
  | jarr elems =>
    have h' : countAPList elems = 0 := h
    show (JValue.jarr (removeAPList elems).1, (removeAPList elems).2) = (.jarr elems, 0)
    rw [removeAPList_of_clean elems h']
  | jobj fields =>
    have h' : countAPFields fields = 0 := h
    show (JValue.jobj (removeAPFields fields).1, (removeAPFields fields).2) = (.jobj fields, 0)
    rw [removeAPFields_of_clean fields h']

theorem removeAPList_of_clean (elems : List JValue) (h : countAPList elems = 0) :
    removeAPList elems = (elems, 0) := by
  cases elems with
  | nil => rfl
  | cons v rest =>
    have hv : countAP v = 0 := by
      have := h
      simp only [countAPList] at this
      omega
    have hr : countAPList rest = 0 := by
      have := h
      simp only [countAPList] at this
      omega
    show ((removeAP v).1 :: (removeAPList rest).1, (removeAP v).2 + (removeAPList rest).2)
        = (v :: rest, 0)
    rw [removeAP_of_clean v hv, removeAPList_of_clean rest hr]
    rfl

theorem removeAPFields_of_clean (fields : List (String × JValue))
    (h : countAPFields fields = 0) : removeAPFields fields = (fields, 0) := by
  cases fields with
  | nil => rfl
  | cons f rest =>
    obtain ⟨k, v⟩ := f
    have hk : ¬ k = "additionalProperties" := by
      intro hk
      have := h
      simp only [countAPFields, if_pos hk] at this
      omega
    have hv : countAP v = 0 := by
      have := h
      simp only [countAPFields, if_neg hk] at this
      omega
    have hr : countAPFields rest = 0 := by
      have := h
      simp only [countAPFields, if_neg hk] at this
      omega
    show removeAPFields ((k, v) :: rest) = ((k, v) :: rest, 0)
    simp only [removeAPFields, if_neg hk]
    rw [removeAP_of_clean v hv, removeAPFields_of_clean rest hr]
    rfl

end

mutual

theorem removeAP_count_eq (j : JValue) (h : noNestedAP j = true) :
    (removeAP j).2 = countAP j := by
  cases j with
  | jnull => rfl
  | jbool b => rfl
  | jnum n => rfl
  | jstr s => rfl
  | jarr elems =>
    show (removeAPList elems).2 = countAPList elems
    exact removeAPList_count_eq elems h
  | jobj fields =>
    show (removeAPFields fields).2 = countAPFields fields
    exact removeAPFields_count_eq fields h

theorem removeAPList_count_eq (elems : List JValue) (h : noNestedAPList elems = true) :
    (removeAPList elems).2 = countAPList elems := by
  cases elems with
  | nil => rfl
  | cons v rest =>
    have hv : noNestedAP v = true := by
      simp only [noNestedAPList, Bool.and_eq_true] at h
      exact h.1
    have hr : noNestedAPList rest = true := by
      simp only [noNestedAPList, Bool.and_eq_true] at h
      exact h.2
    show (removeAP v).2 + (removeAPList rest).2 = countAP v + countAPList rest
    rw [removeAP_count_eq v hv, removeAPList_count_eq rest hr]

theorem removeAPFields_count_eq (fields : List (String × JValue))
    (h : noNestedAPFields fields = true) :
    (removeAPFields fields).2 = countAPFields fields := by
  cases fields with
  | nil => rfl
  | cons f rest =>
    obtain ⟨k, v⟩ := f
    have hr : noNestedAPFields rest = true := by
      simp only [noNestedAPFields, Bool.and_eq_true] at h
      exact h.2
    by_cases hk : k = "additionalProperties"
    · have hv : countAP v = 0 := by
        simp only [noNestedAPFields, Bool.and_eq_true, if_pos hk,
          decide_eq_true_eq] at h
        exact h.1
      show (removeAPFields ((k, v) :: rest)).2 = countAPFields ((k, v) :: rest)
      simp only [removeAPFields, countAPFields, if_pos hk]
      rw [removeAPFields_count_eq rest hr, hv]
    · have hv : noNestedAP v = true := by
        simp only [noNestedAPFields, Bool.and_eq_true, if_neg hk] at h
        exact h.1
      show (removeAPFields ((k, v) :: rest)).2 = countAPFields ((k, v) :: rest)
      simp only [removeAPFields, countAPFields, if_neg hk]
      rw [removeAP_count_eq v hv, removeAPFields_count_eq rest hr]
      omega

end

theorem length_filter_filterMap {α β : Type} (f : α → Option β) (p : β → Bool)
    (l : List α) :
    ((l.filterMap f).filter p).length
      = l.countP (fun a => ((f a).map p).getD false) := by
  induction l with
  | nil => rfl
  | cons x xs ih =>
    rw [List.filterMap_cons, List.countP_cons]
    cases hfx : f x with
    | none => simp [ih]
    | some b =>
      cases hpb : p b with
      | false => simp [List.filter_cons, hpb, ih]
      | true => simp [List.filter_cons, hpb, ih]

theorem idorAccessibleIds_eq_map_filter (probes : List IdorProbe) :
    idorAccessibleIds probes
      = (probes.filter (fun p => decide (p.statusCode = some 200))).map IdorProbe.testId := by
  induction probes with
  | nil => rfl
  | cons p ps ih =>
    by_cases h200 : p.statusCode = some 200
    · simp [idorAccessibleIds, List.filterMap_cons, List.filter_cons, h200] at ih ⊢
      exact ih
    · simp [idorAccessibleIds, List.filterMap_cons, List.filter_cons, h200] at ih ⊢
      exact ih

/- ### JSON round-trip: character and whitespace lemmas -/

theorem charToNat_ofNat {n : Nat} (h : n < 55296) : (Char.ofNat n).toNat = n := by
  have hv : Nat.isValidChar n := Or.inl h
  simp [Char.ofNat, hv, Char.toNat]
  rfl

theorem ne_of_toNat_ne {c d : Char} (h : c.toNat ≠ d.toNat) : c ≠ d :=
  fun hc => h (congrArg Char.toNat hc)

theorem ofNat_toNat_eq (c : Char) : Char.ofNat c.toNat = c := Char.ofNat_toNat c

theorem skipWs_cons_of_not_ws {c : Char} (s : List Char) (h : isWsChar c = false) :
    skipWs (c :: s) = c :: s := by
  simp [skipWs, h]

theorem skipWs_cons_of_ws {c : Char} (s : List Char) (h : isWsChar c = true) :
    skipWs (c :: s) = skipWs s := by
  simp [skipWs, h]

theorem skipWs_append_of_ws (l s : List Char) (h : ∀ c ∈ l, isWsChar c = true) :
    skipWs (l ++ s) = skipWs s := by
  induction l with
  | nil => rfl
  | cons c cs ih =>
    rw [List.cons_append, skipWs_cons_of_ws _ (h c (List.mem_cons_self c cs))]
    exact ih (fun x hx => h x (List.mem_cons_of_mem _ hx))

theorem indentChars_ws (k : Nat) : ∀ c ∈ indentChars k, isWsChar c = true := by
  intro c hc
  have hcs : c = ' ' := List.eq_of_mem_replicate hc
  subst hcs
  decide

theorem skipWs_indent (k : Nat) (s : List Char) :
    skipWs (indentChars k ++ s) = skipWs s :=
  skipWs_append_of_ws _ _ (indentChars_ws k)

theorem not_ws_of_digit {c : Char} (h1 : 48 ≤ c.toNat) : isWsChar c = false := by
  simp only [isWsChar, decide_eq_false_iff_not]
  omega

theorem digitChar_toNat {n : Nat} (h : n < 10) : (digitChar n).toNat = 48 + n :=
  charToNat_ofNat (by omega)

theorem isDigitChar_digitChar {n : Nat} (h : n < 10) : isDigitChar (digitChar n) = true := by
  simp only [isDigitChar, decide_eq_true_eq, digitChar_toNat h]
  omega

theorem natToChars_of_lt {n : Nat} (h : n < 10) : natToChars n = [digitChar n] := by
  rw [natToChars, if_pos h]

theorem natToChars_of_ge {n : Nat} (h : ¬ n < 10) :
    natToChars n = natToChars (n / 10) ++ [digitChar (n % 10)] := by
  conv_lhs => rw [natToChars]
  rw [if_neg h]

theorem natToChars_head (n : Nat) :
    ∃ c cs, natToChars n = c :: cs ∧ 48 ≤ c.toNat ∧ c.toNat ≤ 57 := by
  induction n using Nat.strong_induction_on with
  | _ n ih =>
    by_cases h : n < 10
    · refine ⟨digitChar n, [], natToChars_of_lt h, ?_, ?_⟩
      · rw [digitChar_toNat h]; omega
      · rw [digitChar_toNat h]; omega
    · obtain ⟨c, cs, hcc, hlo, hhi⟩ := ih (n / 10) (by omega)
      refine ⟨c, cs ++ [digitChar (n % 10)], ?_, hlo, hhi⟩
      rw [natToChars_of_ge h, hcc]
      rfl

theorem parseNatAux_stop (r : List Char) (acc : Nat)
    (h : ∀ c cs, r = c :: cs → isDigitChar c = false) :
    parseNatAux r acc = (acc, r) := by
  cases r with
  | nil => rfl
  | cons c cs => simp [parseNatAux, h c cs rfl]

theorem parseNatAux_run (n : Nat) : ∀ (acc : Nat) (rest : List Char),
    parseNatAux (natToChars n ++ rest) acc
      = parseNatAux rest (acc * 10 ^ (natToChars n).length + n) := by
  induction n using Nat.strong_induction_on with
  | _ n ih =>
    intro acc rest
    by_cases h : n < 10
    · rw [natToChars_of_lt h]
      show parseNatAux (digitChar n :: rest) acc = _
      simp only [parseNatAux]
      rw [if_pos (isDigitChar_digitChar h), digitChar_toNat h]
      congr 1
      simp only [List.length_cons, List.length_nil, pow_one, Nat.zero_add]
      omega
    · rw [natToChars_of_ge h, List.append_assoc,
        ih (n / 10) (by omega) acc ([digitChar (n % 10)] ++ rest)]
      show parseNatAux (digitChar (n % 10) :: rest) _ = _
      simp only [parseNatAux]
      rw [if_pos (isDigitChar_digitChar (by omega)), digitChar_toNat (by omega)]
      congr 1
      have hsub : 48 + n % 10 - 48 = n % 10 := by omega
      rw [hsub]
      have hlen : (natToChars (n / 10) ++ [digitChar (n % 10)]).length
          = (natToChars (n / 10)).length + 1 := by simp
      rw [hlen, pow_succ]
      have hn : 10 * (n / 10) + n % 10 = n := by omega
      calc 10 * (acc * 10 ^ (natToChars (n / 10)).length + n / 10) + n % 10
          = acc * (10 ^ (natToChars (n / 10)).length * 10)
            + (10 * (n / 10) + n % 10) := by ring
        _ = acc * (10 ^ (natToChars (n / 10)).length * 10) + n := by rw [hn]

theorem parseNat_full (n : Nat) (rest : List Char)
    (hrest : ∀ c cs, rest = c :: cs → isDigitChar c = false) :
    parseNatAux (natToChars n ++ rest) 0 = (n, rest) := by
  rw [parseNatAux_run, parseNatAux_stop _ _ hrest]
  congr 1
  omega

theorem hexVal_hexDigitChar {d : Nat} (h : d < 16) : hexVal (hexDigitChar d) = some d := by
  interval_cases d <;> decide

theorem parseStringBody_escChars (l : List Char) : ∀ (rest : List Char),
    parseStringBody (escChars l ++ ('"' :: rest)) = some (l, rest) := by
  induction l with
  | nil =>
    intro rest
    show parseStringBody ('"' :: rest) = some ([], rest)
    conv_lhs => unfold parseStringBody
    simp
  | cons c cs ih =>
    intro rest
    have hih := ih rest
    show parseStringBody ((escapeChar c ++ escChars cs) ++ ('"' :: rest)) = some (c :: cs, rest)
    rw [List.append_assoc]
    by_cases hq : c = '"'
    · subst hq
      show parseStringBody ('\\' :: ('"' :: (escChars cs ++ ('"' :: rest))))
          = some ('"' :: cs, rest)
      conv_lhs => unfold parseStringBody
      simp [hih]
    by_cases hb : c = '\\'
    · subst hb
      show parseStringBody ('\\' :: ('\\' :: (escChars cs ++ ('"' :: rest))))
          = some ('\\' :: cs, rest)
      conv_lhs => unfold parseStringBody
      simp [hih]
    by_cases h8 : c.toNat = 8
    · have hesc : escapeChar c = ['\\', 'b'] := by
        unfold escapeChar
        rw [if_neg hq, if_neg hb, if_pos h8]
      have hc8 : Char.ofNat 8 = c := by rw [← h8, ofNat_toNat_eq]
      rw [hesc, List.cons_append, List.cons_append, List.nil_append]
      conv_lhs => unfold parseStringBody
      simp [hih]
      exact hc8
    by_cases h9 : c.toNat = 9
    · have hesc : escapeChar c = ['\\', 't'] := by
        unfold escapeChar
        rw [if_neg hq, if_neg hb, if_neg h8, if_pos h9]
      have hc9 : Char.ofNat 9 = c := by rw [← h9, ofNat_toNat_eq]
      rw [hesc, List.cons_append, List.cons_append, List.nil_append]
      conv_lhs => unfold parseStringBody
      simp [hih]
      exact hc9
    by_cases h10 : c.toNat = 10
    · have hesc : escapeChar c = ['\\', 'n'] := by
        unfold escapeChar
        rw [if_neg hq, if_neg hb, if_neg h8, if_neg h9, if_pos h10]
      have hc10 : Char.ofNat 10 = c := by rw [← h10, ofNat_toNat_eq]
      rw [hesc, List.cons_append, List.cons_append, List.nil_append]
      conv_lhs => unfold parseStringBody
      simp [hih]
      exact hc10
    by_cases h12 : c.toNat = 12
    · have hesc : escapeChar c = ['\\', 'f'] := by
        unfold escapeChar
        rw [if_neg hq, if_neg hb, if_neg h8, if_neg h9, if_neg h10, if_pos h12]
      have hc12 : Char.ofNat 12 = c := by rw [← h12, ofNat_toNat_eq]
      rw [hesc, List.cons_append, List.cons_append, List.nil_append]
      conv_lhs => unfold parseStringBody
      simp [hih]
      exact hc12
    by_cases h13 : c.toNat = 13
    · have hesc : escapeChar c = ['\\', 'r'] := by
        unfold escapeChar
        rw [if_neg hq, if_neg hb, if_neg h8, if_neg h9, if_neg h10, if_neg h12, if_pos h13]
      have hc13 : Char.ofNat 13 = c := by rw [← h13, ofNat_toNat_eq]
      rw [hesc, List.cons_append, List.cons_append, List.nil_append]
      conv_lhs => unfold parseStringBody
      simp [hih]
      exact hc13
    by_cases h32 : c.toNat < 32
    · have hesc : escapeChar c
          = ['\\', 'u', '0', '0', hexDigitChar (c.toNat / 16), hexDigitChar (c.toNat % 16)] := by
        unfold escapeChar
        rw [if_neg hq, if_neg hb, if_neg h8, if_neg h9, if_neg h10, if_neg h12, if_neg h13,
          if_pos h32]
      have e1 : hexVal (hexDigitChar (c.toNat / 16)) = some (c.toNat / 16) :=
        hexVal_hexDigitChar (by omega)
      have e2 : hexVal (hexDigitChar (c.toNat % 16)) = some (c.toNat % 16) :=
        hexVal_hexDigitChar (by omega)
      have e0 : hexVal '0' = some 0 := rfl
      rw [hesc]
      simp only [List.cons_append, List.nil_append]
      conv_lhs => unfold parseStringBody
      simp only [e0, e1, e2]
      have hcode : c.toNat / 16 * 16 + c.toNat % 16 = c.toNat := by omega
      simp [hih]
      refine ⟨by omega, ?_⟩
      rw [hcode, ofNat_toNat_eq]
    · have hesc : escapeChar c = [c] := by
        unfold escapeChar
        rw [if_neg hq, if_neg hb, if_neg h8, if_neg h9, if_neg h10, if_neg h12, if_neg h13,
          if_neg h32]
      rw [hesc, List.cons_append, List.nil_append]
      conv_lhs => unfold parseStringBody
      rw [if_neg hq, if_neg hb, if_pos (show 32 ≤ c.toNat by omega), hih]
      rfl

/- ### JSON round-trip: serializer equations and parser dispatch lemmas -/

theorem serValue_jnull (k : Nat) : serValue k JValue.jnull = ['n', 'u', 'l', 'l'] := by
  simp only [serValue]

theorem serValue_jtrue (k : Nat) : serValue k (JValue.jbool true) = ['t', 'r', 'u', 'e'] := by
  simp only [serValue]

theorem serValue_jfalse (k : Nat) :
    serValue k (JValue.jbool false) = ['f', 'a', 'l', 's', 'e'] := by
  simp only [serValue]

theorem serValue_jnum (k : Nat) (n : Int) : serValue k (JValue.jnum n) = intToChars n := by
  simp only [serValue]

theorem serValue_jstr (k : Nat) (s : String) :
    serValue k (JValue.jstr s) = '"' :: (escChars s.data ++ ['"']) := by
  simp only [serValue]

theorem serValue_jarr_nil (k : Nat) : serValue k (JValue.jarr []) = ['[', ']'] := by
  simp only [serValue]

theorem serValue_jarr_cons (k : Nat) (x : JValue) (xs : List JValue) :
    serValue k (JValue.jarr (x :: xs))
      = '[' :: ('\n' :: (indentChars (k + 1) ++ (serValue (k + 1) x ++
          (serArrRest (k + 1) xs ++ ('\n' :: (indentChars k ++ [']'])))))) := by
  simp only [serValue]

theorem serValue_jobj_nil (k : Nat) : serValue k (JValue.jobj []) = [lbrace, rbrace] := by
  simp only [serValue]

theorem serValue_jobj_cons (k : Nat) (f : String × JValue) (fs : List (String × JValue)) :
    serValue k (JValue.jobj (f :: fs))
      = lbrace :: ('\n' :: (indentChars (k + 1) ++ (serField (k + 1) f ++
          (serObjRest (k + 1) fs ++ ('\n' :: (indentChars k ++ [rbrace])))))) := by
  simp only [serValue]

theorem serField_eq (k : Nat) (key : String) (v : JValue) :
    serField k (key, v)
      = '"' :: (escChars key.data ++ ('"' :: (':' :: (' ' :: serValue k v)))) := by
  simp only [serField]

theorem serArrRest_nil (k : Nat) : serArrRest k [] = [] := by
  simp only [serArrRest]

theorem serArrRest_cons (k : Nat) (x : JValue) (xs : List JValue) :
    serArrRest k (x :: xs)
      = ',' :: ('\n' :: (indentChars k ++ (serValue k x ++ serArrRest k xs))) := by
  simp only [serArrRest]

theorem serObjRest_nil (k : Nat) : serObjRest k [] = [] := by
  simp only [serObjRest]

theorem serObjRest_cons (k : Nat) (f : String × JValue) (fs : List (String × JValue)) :
    serObjRest k (f :: fs)
      = ',' :: ('\n' :: (indentChars k ++ (serField k f ++ serObjRest k fs))) := by
  simp only [serObjRest]

theorem intToChars_of_neg {n : Int} (h : n < 0) : intToChars n = '-' :: natToChars n.natAbs := by
  unfold intToChars
  rw [if_pos h]

theorem intToChars_of_nonneg {n : Int} (h : ¬ n < 0) : intToChars n = natToChars n.natAbs := by
  unfold intToChars
  rw [if_neg h]

/-- The head character of any serialized value: never whitespace, never a
closing bracket, never a closing brace. -/
theorem serValue_head (k : Nat) (j : JValue) :
    ∃ c cs, serValue k j = c :: cs ∧ isWsChar c = false ∧ c.toNat ≠ 93 ∧ c.toNat ≠ 125 := by
  cases j with
  | jnull => exact ⟨'n', _, serValue_jnull k, by decide, by decide, by decide⟩
  | jbool b =>
    cases b with
    | true => exact ⟨'t', _, serValue_jtrue k, by decide, by decide, by decide⟩
    | false => exact ⟨'f', _, serValue_jfalse k, by decide, by decide, by decide⟩
  | jnum n =>
    rw [serValue_jnum]
    by_cases h : n < 0
    · exact ⟨'-', _, intToChars_of_neg h, by decide, by decide, by decide⟩
    · obtain ⟨c, cs, hcc, hlo, hhi⟩ := natToChars_head n.natAbs
      refine ⟨c, cs, ?_, not_ws_of_digit hlo, by omega, by omega⟩
      rw [intToChars_of_nonneg h, hcc]
  | jstr s => exact ⟨'"', _, serValue_jstr k s, by decide, by decide, by decide⟩
  | jarr elems =>
    cases elems with
    | nil => exact ⟨'[', _, serValue_jarr_nil k, by decide, by decide, by decide⟩
    | cons x xs => exact ⟨'[', _, serValue_jarr_cons k x xs, by decide, by decide, by decide⟩
  | jobj fields =>
    cases fields with
    | nil => exact ⟨lbrace, _, serValue_jobj_nil k, by decide, by decide, by decide⟩
    | cons f fs => exact ⟨lbrace, _, serValue_jobj_cons k f fs, by decide, by decide, by decide⟩

theorem okTail_elim {rest : List Char} (h : okTail rest) :
    ∀ c cs, rest = c :: cs → isDigitChar c = false := by
  intro c cs hrest
  subst hrest
  exact h

theorem parseValue_succ (f : Nat) (input : List Char) :
    parseValue (f + 1) input
      = pvBody (parseElems f) (parseMembers f) (skipWs input) := rfl

theorem parseElems_succ (f : Nat) (input : List Char) :
    parseElems (f + 1) input = peBody (parseValue f) (parseElems f) input := rfl

theorem parseMembers_succ (f : Nat) (input : List Char) :
    parseMembers (f + 1) input
      = pmBody (parseValue f) (parseMembers f) (skipWs input) := rfl

theorem pvBody_quote (pe : List Char → Option (List JValue × List Char))
    (pm : List Char → Option (List (String × JValue) × List Char)) (Z : List Char) :
    pvBody pe pm ('"' :: Z)
      = (parseStringBody Z).map (fun p => (JValue.jstr (String.mk p.1), p.2)) := rfl

theorem pvBody_lbrack_close (pe : List Char → Option (List JValue × List Char))
    (pm : List Char → Option (List (String × JValue) × List Char)) (Z r2 : List Char)
    (hskip : skipWs Z = ']' :: r2) :
    pvBody pe pm ('[' :: Z) = some (JValue.jarr [], r2) := by
  conv_lhs => unfold pvBody
  simp [hskip]

theorem pvBody_lbrack_cons (pe : List Char → Option (List JValue × List Char))
    (pm : List Char → Option (List (String × JValue) × List Char)) (Z r2 : List Char)
    (d : Char) (hskip : skipWs Z = d :: r2) (hne : ¬ d = ']') :
    pvBody pe pm ('[' :: Z) = (pe (d :: r2)).map (fun p => (JValue.jarr p.1, p.2)) := by
  conv_lhs => unfold pvBody
  simp [hskip, hne]

theorem pvBody_lbrace_close (pe : List Char → Option (List JValue × List Char))
    (pm : List Char → Option (List (String × JValue) × List Char)) (Z r2 : List Char)
    (hskip : skipWs Z = rbrace :: r2) :
    pvBody pe pm (lbrace :: Z) = some (JValue.jobj [], r2) := by
  conv_lhs => unfold pvBody
  simp [hskip, lbrace, rbrace]

theorem pvBody_lbrace_cons (pe : List Char → Option (List JValue × List Char))
    (pm : List Char → Option (List (String × JValue) × List Char)) (Z r2 : List Char)
    (d : Char) (hskip : skipWs Z = d :: r2) (hne : ¬ d = rbrace) :
    pvBody pe pm (lbrace :: Z) = (pm (d :: r2)).map (fun p => (JValue.jobj p.1, p.2)) := by
  have hne' : ¬ d = Char.ofNat 125 := hne
  conv_lhs => unfold pvBody
  simp [hskip, hne', lbrace, rbrace]

theorem pvBody_digit (pe : List Char → Option (List JValue × List Char))
    (pm : List Char → Option (List (String × JValue) × List Char)) (c : Char) (Z : List Char)
    (h1 : 48 ≤ c.toNat) (h2 : c.toNat ≤ 57) :
    pvBody pe pm (c :: Z)
      = some (JValue.jnum ((parseNatAux Z (c.toNat - 48)).1 : Int),
          (parseNatAux Z (c.toNat - 48)).2) := by
  have hn : ¬ c = 'n' := by intro hc; rw [hc] at h2; exact absurd h2 (by decide)
  have ht : ¬ c = 't' := by intro hc; rw [hc] at h2; exact absurd h2 (by decide)
  have hf : ¬ c = 'f' := by intro hc; rw [hc] at h2; exact absurd h2 (by decide)
  have hq : ¬ c = '"' := by intro hc; rw [hc] at h1; exact absurd h1 (by decide)
  have hk : ¬ c = '[' := by intro hc; rw [hc] at h2; exact absurd h2 (by decide)
  have hbr : ¬ c = lbrace := by intro hc; rw [hc] at h2; exact absurd h2 (by decide)
  have hm : ¬ c = '-' := by intro hc; rw [hc] at h1; exact absurd h1 (by decide)
  have hdig : isDigitChar c = true := by
    simp only [isDigitChar, decide_eq_true_eq]
    omega
  conv_lhs => unfold pvBody
  simp [hn, ht, hf, hq, hk, hbr, hm, hdig]

theorem pvBody_minus (pe : List Char → Option (List JValue × List Char))
    (pm : List Char → Option (List (String × JValue) × List Char)) (d : Char) (ds : List Char)
    (h1 : 48 ≤ d.toNat) (h2 : d.toNat ≤ 57) :
    pvBody pe pm ('-' :: (d :: ds))
      = some (JValue.jnum (-((parseNatAux ds (d.toNat - 48)).1 : Int)),
          (parseNatAux ds (d.toNat - 48)).2) := by
  have hdig : isDigitChar d = true := by
    simp only [isDigitChar, decide_eq_true_eq]
    omega
  conv_lhs => unfold pvBody
  simp [hdig, show ¬ '-' = lbrace by decide]

theorem peBody_close (pv : List Char → Option (JValue × List Char))
    (pes : List Char → Option (List JValue × List Char)) (input : List Char) (v : JValue)
    (r r2 : List Char) (hpv : pv input = some (v, r)) (hskip : skipWs r = ']' :: r2) :
    peBody pv pes input = some ([v], r2) := by
  unfold peBody
  simp [hpv, hskip]

theorem peBody_comma (pv : List Char → Option (JValue × List Char))
    (pes : List Char → Option (List JValue × List Char)) (input : List Char) (v : JValue)
    (r r2 r3 : List Char) (vs : List JValue) (hpv : pv input = some (v, r))
    (hskip : skipWs r = ',' :: r2) (hpes : pes r2 = some (vs, r3)) :
    peBody pv pes input = some (v :: vs, r3) := by
  unfold peBody
  simp [hpv, hskip, hpes]

theorem pmBody_close (pv : List Char → Option (JValue × List Char))
    (pms : List Char → Option (List (String × JValue) × List Char)) (Z : List Char)
    (key : List Char) (v : JValue) (r2 r3 r4 r5 : List Char)
    (hkey : parseStringBody Z = some (key, r2)) (hsk1 : skipWs r2 = ':' :: r3)
    (hpv : pv r3 = some (v, r4)) (hsk2 : skipWs r4 = rbrace :: r5) :
    pmBody pv pms ('"' :: Z) = some ([(String.mk key, v)], r5) := by
  have hne : ¬ rbrace = ',' := by decide
  conv_lhs => unfold pmBody
  simp [hkey, hsk1, hpv, hsk2, hne]

theorem pmBody_comma (pv : List Char → Option (JValue × List Char))
    (pms : List Char → Option (List (String × JValue) × List Char)) (Z : List Char)
    (key : List Char) (v : JValue) (r2 r3 r4 r5 r6 : List Char)
    (fs : List (String × JValue)) (hkey : parseStringBody Z = some (key, r2))
    (hsk1 : skipWs r2 = ':' :: r3) (hpv : pv r3 = some (v, r4))
    (hsk2 : skipWs r4 = ',' :: r5) (hpms : pms r5 = some (fs, r6)) :
    pmBody pv pms ('"' :: Z) = some ((String.mk key, v) :: fs, r6) := by
  conv_lhs => unfold pmBody
  simp [hkey, hsk1, hpv, hsk2, hpms]

theorem jsize_jarr (l : List JValue) : jsize (JValue.jarr l) = jsizeList l + 1 := by
  simp only [jsize]

theorem jsize_jobj (l : List (String × JValue)) :
    jsize (JValue.jobj l) = jsizeFields l + 1 := by
  simp only [jsize]

theorem jsizeList_cons (v : JValue) (rest : List JValue) :
    jsizeList (v :: rest) = jsize v + jsizeList rest + 1 := by
  simp only [jsizeList]

theorem jsizeFields_cons (f : String × JValue) (rest : List (String × JValue)) :
    jsizeFields (f :: rest) = jsize f.2 + jsizeFields rest + 1 := by
  simp only [jsizeFields]

theorem jsize_pos (j : JValue) : 1 ≤ jsize j := by
  cases j <;> simp [jsize]

theorem nl_indent_ws (k : Nat) : ∀ c ∈ '\n' :: indentChars k, isWsChar c = true := by
  intro c hc
  rcases List.mem_cons.mp hc with h | h
  · subst h
    decide
  · exact indentChars_ws k c h

mutual

theorem parse_serValue (fuel : Nat) (j : JValue) (k : Nat) (pre rest : List Char)
    (hpre : ∀ c ∈ pre, isWsChar c = true) (hrest : okTail rest)
    (hfuel : jsize j ≤ fuel) :
    parseValue fuel (pre ++ (serValue k j ++ rest)) = some (j, rest) := by
  cases fuel with
  | zero =>
    exfalso
    have := jsize_pos j
    omega
  | succ f =>
    cases j with
    | jnull =>
      rw [parseValue_succ, serValue_jnull]
      simp only [List.cons_append, List.nil_append]
      rw [skipWs_append_of_ws _ _ hpre, skipWs_cons_of_not_ws _ (by decide)]
      rfl
    | jbool b =>
      cases b with
      | true =>
        rw [parseValue_succ, serValue_jtrue]
        simp only [List.cons_append, List.nil_append]
        rw [skipWs_append_of_ws _ _ hpre, skipWs_cons_of_not_ws _ (by decide)]
        rfl
      | false =>
        rw [parseValue_succ, serValue_jfalse]
        simp only [List.cons_append, List.nil_append]
        rw [skipWs_append_of_ws _ _ hpre, skipWs_cons_of_not_ws _ (by decide)]
        rfl
    | jstr s =>
      rw [parseValue_succ, serValue_jstr]
      simp only [List.cons_append, List.append_assoc, List.singleton_append]
      rw [skipWs_append_of_ws _ _ hpre, skipWs_cons_of_not_ws _ (by decide)]
      rw [pvBody_quote, parseStringBody_escChars]
      rfl
    | jnum n =>
      rw [parseValue_succ, serValue_jnum]
      by_cases hneg : n < 0
      · rw [intToChars_of_neg hneg]
        obtain ⟨hc, hcs, hser, hlo, hhi⟩ := natToChars_head n.natAbs
        rw [hser]
        simp only [List.cons_append, List.append_assoc]
        rw [skipWs_append_of_ws _ _ hpre, skipWs_cons_of_not_ws _ (by decide)]
        rw [pvBody_minus _ _ _ _ hlo hhi]
        have hfull : parseNatAux ((hc :: hcs) ++ rest) 0 = (n.natAbs, rest) := by
          rw [← hser]
          exact parseNat_full n.natAbs rest (okTail_elim hrest)
        have hstep : parseNatAux (hcs ++ rest) (hc.toNat - 48) = (n.natAbs, rest) := by
          rw [List.cons_append] at hfull
          simp only [parseNatAux] at hfull
          rw [if_pos (show isDigitChar hc = true by
            simp only [isDigitChar, decide_eq_true_eq]; omega)] at hfull
          rw [show 10 * 0 + (hc.toNat - 48) = hc.toNat - 48 from by omega] at hfull
          exact hfull
        rw [hstep]
        show some (JValue.jnum (-((n.natAbs : Nat) : Int)), rest) = some (JValue.jnum n, rest)
        have hval : -(((n.natAbs : Nat) : Int)) = n := by omega
        rw [hval]
      · rw [intToChars_of_nonneg hneg]
        obtain ⟨hc, hcs, hser, hlo, hhi⟩ := natToChars_head n.natAbs
        rw [hser]
        simp only [List.cons_append]
        rw [skipWs_append_of_ws _ _ hpre, skipWs_cons_of_not_ws _ (not_ws_of_digit hlo)]
        rw [pvBody_digit _ _ _ _ hlo hhi]
        have hfull : parseNatAux ((hc :: hcs) ++ rest) 0 = (n.natAbs, rest) := by
          rw [← hser]
          exact parseNat_full n.natAbs rest (okTail_elim hrest)
        have hstep : parseNatAux (hcs ++ rest) (hc.toNat - 48) = (n.natAbs, rest) := by
          rw [List.cons_append] at hfull
          simp only [parseNatAux] at hfull
          rw [if_pos (show isDigitChar hc = true by
            simp only [isDigitChar, decide_eq_true_eq]; omega)] at hfull
          rw [show 10 * 0 + (hc.toNat - 48) = hc.toNat - 48 from by omega] at hfull
          exact hfull
        rw [hstep]
        show some (JValue.jnum (((n.natAbs : Nat) : Int)), rest) = some (JValue.jnum n, rest)
        have hval : (((n.natAbs : Nat) : Int)) = n := by omega
        rw [hval]
    | jarr elems =>
      cases elems with
      | nil =>
        rw [parseValue_succ, serValue_jarr_nil]
        simp only [List.cons_append, List.nil_append]
        rw [skipWs_append_of_ws _ _ hpre, skipWs_cons_of_not_ws _ (by decide)]
        exact pvBody_lbrack_close _ _ _ _ (skipWs_cons_of_not_ws _ (by decide))
      | cons x xs =>
        rw [parseValue_succ, serValue_jarr_cons]
        simp only [List.cons_append, List.append_assoc, List.singleton_append,
          List.nil_append]
        rw [skipWs_append_of_ws _ _ hpre, skipWs_cons_of_not_ws _ (by decide)]
        obtain ⟨hc, hcs, hser, hnws, h93, h125⟩ := serValue_head (k + 1) x
        have hskipZ : skipWs ('\n' :: (indentChars (k + 1) ++ (serValue (k + 1) x ++
            (serArrRest (k + 1) xs ++ ('\n' :: (indentChars k ++ (']' :: rest)))))))
            = hc :: (hcs ++ (serArrRest (k + 1) xs ++
                ('\n' :: (indentChars k ++ (']' :: rest))))) := by
          rw [skipWs_cons_of_ws _ (by decide), skipWs_indent, hser, List.cons_append,
            skipWs_cons_of_not_ws _ hnws]
        have hne : ¬ hc = ']' := fun hh => h93 (by rw [hh]; rfl)
        rw [pvBody_lbrack_cons _ _ _ _ _ hskipZ hne]
        rw [← List.cons_append, ← hser]
        have hfe : jsizeList (x :: xs) ≤ f := by
          rw [jsize_jarr] at hfuel
          omega
        have hpe := parse_serElems f x xs (k + 1) k [] rest (by simp) hrest hfe
        rw [List.nil_append] at hpe
        rw [hpe]
        rfl
    | jobj fields =>
      cases fields with
      | nil =>
        rw [parseValue_succ, serValue_jobj_nil]
        simp only [List.cons_append, List.nil_append]
        rw [skipWs_append_of_ws _ _ hpre,
          skipWs_cons_of_not_ws _ (show isWsChar lbrace = false by decide)]
        exact pvBody_lbrace_close _ _ _ _
          (skipWs_cons_of_not_ws _ (show isWsChar rbrace = false by decide))
      | cons fhd fs =>
        obtain ⟨key, v⟩ := fhd
        rw [parseValue_succ, serValue_jobj_cons]
        simp only [List.cons_append, List.append_assoc, List.singleton_append,
          List.nil_append]
        rw [skipWs_append_of_ws _ _ hpre,
          skipWs_cons_of_not_ws _ (show isWsChar lbrace = false by decide)]
        have hskipZ : skipWs ('\n' :: (indentChars (k + 1) ++ (serField (k + 1) (key, v) ++
            (serObjRest (k + 1) fs ++ ('\n' :: (indentChars k ++ (rbrace :: rest)))))))
            = '"' :: ((escChars key.data ++ ('"' :: (':' :: (' ' :: serValue (k + 1) v)))) ++
                (serObjRest (k + 1) fs ++ ('\n' :: (indentChars k ++ (rbrace :: rest))))) := by
          rw [skipWs_cons_of_ws _ (by decide), skipWs_indent, serField_eq, List.cons_append,
            skipWs_cons_of_not_ws _ (by decide)]
        have hne : ¬ '"' = rbrace := by decide
        rw [pvBody_lbrace_cons _ _ _ _ _ hskipZ hne]
        rw [← List.cons_append, ← serField_eq]
        have hfm : jsizeFields ((key, v) :: fs) ≤ f := by
          rw [jsize_jobj] at hfuel
          omega
        have hpm := parse_serMembers f key v fs (k + 1) k [] rest (by simp) hrest hfm
        rw [List.nil_append] at hpm
        rw [hpm]
        rfl

theorem parse_serElems (fuel : Nat) (x : JValue) (xs : List JValue) (k m : Nat)
    (pre rest : List Char) (hpre : ∀ c ∈ pre, isWsChar c = true) (hrest : okTail rest)
    (hfuel : jsizeList (x :: xs) ≤ fuel) :
    parseElems fuel (pre ++ (serValue k x ++ (serArrRest k xs ++
      ('\n' :: (indentChars m ++ (']' :: rest)))))) = some (x :: xs, rest) := by
  cases fuel with
  | zero =>
    exfalso
    rw [jsizeList_cons] at hfuel
    omega
  | succ f =>
    rw [parseElems_succ]
    cases xs with
    | nil =>
      rw [serArrRest_nil, List.nil_append]
      have hok : okTail ('\n' :: (indentChars m ++ (']' :: rest))) := by
        show isDigitChar '\n' = false
        decide
      have hfx : jsize x ≤ f := by
        rw [jsizeList_cons] at hfuel
        omega
      have hpv := parse_serValue f x k pre ('\n' :: (indentChars m ++ (']' :: rest)))
        hpre hok hfx
      have hskip : skipWs ('\n' :: (indentChars m ++ (']' :: rest))) = ']' :: rest := by
        rw [skipWs_cons_of_ws _ (by decide), skipWs_indent,
          skipWs_cons_of_not_ws _ (by decide)]
      exact peBody_close _ _ _ _ _ _ hpv hskip
    | cons y ys =>
      rw [serArrRest_cons]
      simp only [List.cons_append, List.append_assoc]
      have hok : okTail (',' :: ('\n' :: (indentChars k ++ (serValue k y ++
          (serArrRest k ys ++ ('\n' :: (indentChars m ++ (']' :: rest)))))))) := by
        show isDigitChar ',' = false
        decide
      have hfx : jsize x ≤ f := by
        rw [jsizeList_cons] at hfuel
        omega
      have hpv := parse_serValue f x k pre (',' :: ('\n' :: (indentChars k ++ (serValue k y ++
        (serArrRest k ys ++ ('\n' :: (indentChars m ++ (']' :: rest)))))))) hpre hok hfx
      have hskip : skipWs (',' :: ('\n' :: (indentChars k ++ (serValue k y ++
          (serArrRest k ys ++ ('\n' :: (indentChars m ++ (']' :: rest))))))))
          = ',' :: ('\n' :: (indentChars k ++ (serValue k y ++
            (serArrRest k ys ++ ('\n' :: (indentChars m ++ (']' :: rest))))))) :=
        skipWs_cons_of_not_ws _ (by decide)
      have hfy : jsizeList (y :: ys) ≤ f := by
        rw [jsizeList_cons, jsizeList_cons] at hfuel
        rw [jsizeList_cons]
        omega
      have hpes := parse_serElems f y ys k m ('\n' :: indentChars k) rest
        (nl_indent_ws k) hrest hfy
      rw [List.cons_append] at hpes
      exact peBody_comma _ _ _ _ _ _ _ _ hpv hskip hpes

theorem parse_serMembers (fuel : Nat) (key : String) (v : JValue)
    (fs : List (String × JValue)) (k m : Nat) (pre rest : List Char)
    (hpre : ∀ c ∈ pre, isWsChar c = true) (hrest : okTail rest)
    (hfuel : jsizeFields ((key, v) :: fs) ≤ fuel) :
    parseMembers fuel (pre ++ (serField k (key, v) ++ (serObjRest k fs ++
      ('\n' :: (indentChars m ++ (rbrace :: rest)))))) = some ((key, v) :: fs, rest) := by
  cases fuel with
  | zero =>
    exfalso
    rw [jsizeFields_cons] at hfuel
    omega
  | succ f =>
    rw [parseMembers_succ, serField_eq]
    simp only [List.cons_append, List.append_assoc]
    rw [skipWs_append_of_ws _ _ hpre, skipWs_cons_of_not_ws _ (by decide)]
    have hkey : parseStringBody (escChars key.data ++ ('"' :: (':' :: (' ' ::
        (serValue k v ++ (serObjRest k fs ++
          ('\n' :: (indentChars m ++ (rbrace :: rest)))))))))
        = some (key.data, ':' :: (' ' :: (serValue k v ++ (serObjRest k fs ++
            ('\n' :: (indentChars m ++ (rbrace :: rest))))))) :=
      parseStringBody_escChars key.data _
    have hsk1 : skipWs (':' :: (' ' :: (serValue k v ++ (serObjRest k fs ++
        ('\n' :: (indentChars m ++ (rbrace :: rest)))))))
        = ':' :: (' ' :: (serValue k v ++ (serObjRest k fs ++
            ('\n' :: (indentChars m ++ (rbrace :: rest)))))) :=
      skipWs_cons_of_not_ws _ (by decide)
    have hfv : jsize v ≤ f := by
      have h := hfuel
      rw [jsizeFields_cons] at h
      have h2 : jsize ((key, v) : String × JValue).2 = jsize v := rfl
      rw [h2] at h
      omega
    cases fs with
    | nil =>
      rw [serObjRest_nil, List.nil_append] at hkey hsk1 ⊢
      have hok : okTail ('\n' :: (indentChars m ++ (rbrace :: rest))) := by
        show isDigitChar '\n' = false
        decide
      have hpv := parse_serValue f v k [' '] ('\n' :: (indentChars m ++ (rbrace :: rest)))
        (by intro c hc; simp at hc; subst hc; decide) hok hfv
      rw [List.singleton_append] at hpv
      have hsk2 : skipWs ('\n' :: (indentChars m ++ (rbrace :: rest))) = rbrace :: rest := by
        rw [skipWs_cons_of_ws _ (by decide), skipWs_indent,
          skipWs_cons_of_not_ws _ (show isWsChar rbrace = false by decide)]
      rw [pmBody_close _ _ _ _ _ _ _ _ _ hkey hsk1 hpv hsk2]
    | cons g gs =>
      obtain ⟨key2, v2⟩ := g
      rw [serObjRest_cons] at hkey hsk1 ⊢
      simp only [List.cons_append, List.append_assoc] at hkey hsk1 ⊢
      have hok : okTail (',' :: ('\n' :: (indentChars k ++ (serField k (key2, v2) ++
          (serObjRest k gs ++ ('\n' :: (indentChars m ++ (rbrace :: rest)))))))) := by
        show isDigitChar ',' = false
        decide
      have hpv := parse_serValue f v k [' '] (',' :: ('\n' :: (indentChars k ++
        (serField k (key2, v2) ++ (serObjRest k gs ++
          ('\n' :: (indentChars m ++ (rbrace :: rest))))))))
        (by intro c hc; simp at hc; subst hc; decide) hok hfv
      rw [List.singleton_append] at hpv
      have hsk2 : skipWs (',' :: ('\n' :: (indentChars k ++ (serField k (key2, v2) ++
          (serObjRest k gs ++ ('\n' :: (indentChars m ++ (rbrace :: rest))))))))
          = ',' :: ('\n' :: (indentChars k ++ (serField k (key2, v2) ++
              (serObjRest k gs ++ ('\n' :: (indentChars m ++ (rbrace :: rest))))))) :=
        skipWs_cons_of_not_ws _ (by decide)
      have hfg : jsizeFields ((key2, v2) :: gs) ≤ f := by
        rw [jsizeFields_cons] at hfuel ⊢
        rw [jsizeFields_cons] at hfuel
        omega
      have hpms := parse_serMembers f key2 v2 gs k m ('\n' :: indentChars k) rest
        (nl_indent_ws k) hrest hfg
      rw [List.cons_append] at hpms
      rw [pmBody_comma _ _ _ _ _ _ _ _ _ _ _ hkey hsk1 hpv hsk2 hpms]

end

mutual

theorem jsize_le_serValue (k : Nat) (j : JValue) :
    jsize j ≤ (serValue k j).length + 1 := by
  cases j with
  | jnull => simp [jsize, serValue_jnull]
  | jbool b =>
    cases b with
    | true => simp [jsize, serValue_jtrue]
    | false => simp [jsize, serValue_jfalse]
  | jnum n =>
    simp only [jsize]
    omega
  | jstr s =>
    simp only [jsize]
    omega
  | jarr elems =>
    cases elems with
    | nil => simp [jsize, jsizeList, serValue_jarr_nil]
    | cons x xs =>
      have ih1 := jsize_le_serValue (k + 1) x
      have ih2 := jsizeList_le_serArrRest (k + 1) xs
      rw [jsize_jarr, jsizeList_cons, serValue_jarr_cons]
      simp only [List.length_cons, List.length_append]
      omega
  | jobj fields =>
    cases fields with
    | nil => simp [jsize, jsizeFields, serValue_jobj_nil]
    | cons f fs =>
      have ih1 := jsize_le_serValue (k + 1) f.2
      have ih2 := jsizeFields_le_serObjRest (k + 1) fs
      have ih3 := jsize_le_serField (k + 1) f
      rw [jsize_jobj, jsizeFields_cons, serValue_jobj_cons]
      simp only [List.length_cons, List.length_append]
      omega

theorem jsize_le_serField (k : Nat) (f : String × JValue) :
    jsize f.2 ≤ (serField k f).length + 1 := by
  obtain ⟨key, v⟩ := f
  have ih := jsize_le_serValue k v
  rw [serField_eq]
  simp only [List.length_cons, List.length_append]
  show jsize v ≤ _
  omega

theorem jsizeList_le_serArrRest (k : Nat) (xs : List JValue) :
    jsizeList xs ≤ (serArrRest k xs).length := by
  cases xs with
  | nil => simp [jsizeList, serArrRest_nil]
  | cons y ys =>
    have ih1 := jsize_le_serValue k y
    have ih2 := jsizeList_le_serArrRest k ys
    rw [jsizeList_cons, serArrRest_cons]
    simp only [List.length_cons, List.length_append]
    omega

theorem jsizeFields_le_serObjRest (k : Nat) (fs : List (String × JValue)) :
    jsizeFields fs ≤ (serObjRest k fs).length := by
  cases fs with
  | nil => simp [jsizeFields, serObjRest_nil]
  | cons g gs =>
    have ih1 := jsize_le_serField k g
    have ih2 := jsizeFields_le_serObjRest k gs
    rw [jsizeFields_cons, serObjRest_cons]
    simp only [List.length_cons, List.length_append]
    omega

end

/- ## Claim theorems -/

/-- C8: writing a session result structure with `generate_json_report`
(`json.dump(scan_results, f, ensure_ascii=False, indent=2)`) and parsing
the written file back as JSON yields a structure equal field-for-field to
the input. -/
theorem C8_json_report_roundtrip (scanResults : JValue) :
    jsonLoads (generate_json_report scanResults) = some scanResults := by
  unfold generate_json_report jsonDumps jsonLoads
  have hdata : (String.mk (serValue 0 scanResults)).data = serValue 0 scanResults := rfl
  rw [hdata]
  have hfuel : jsize scanResults ≤ (serValue 0 scanResults).length + 1 :=
    jsize_le_serValue 0 scanResults
  have hparse := parse_serValue ((serValue 0 scanResults).length + 1) scanResults 0 [] []
    (by simp) trivial hfuel
  rw [List.nil_append, List.append_nil] at hparse
  rw [hparse]
  rfl

/-- C7 (counterexample): the claim says the removal count equals the total
number of occurrences of the key.  On the schema whose
`additionalProperties` value itself contains an `additionalProperties`
key, the walk drops the whole value counting ONE removal, so it returns 1
while the input holds 2 occurrences. -/
theorem C7_clean_parameters_counterexample :
    (removeAP (JValue.jobj [("additionalProperties",
        JValue.jobj [("additionalProperties", JValue.jbool true)])])).2 = 1 ∧
    countAP (JValue.jobj [("additionalProperties",
        JValue.jobj [("additionalProperties", JValue.jbool true)])]) = 2 ∧
    (removeAP (JValue.jobj [("additionalProperties",
        JValue.jobj [("additionalProperties", JValue.jbool true)])])).2
      ≠ countAP (JValue.jobj [("additionalProperties",
        JValue.jobj [("additionalProperties", JValue.jbool true)])]) := by
  refine ⟨rfl, rfl, ?_⟩
  decide

/-- C7 (amended): the schema-stripping walk removes every occurrence of the
key `additionalProperties` at every depth and is idempotent (a second pass
removes 0 and leaves the value unchanged); its removal count equals the
total number of occurrences of the key provided no occurrence is nested
inside the value mapped by another occurrence (in general it counts one
removal per outermost occurrence, dropping the subtree whole). -/
theorem C7_clean_parameters (j : JValue) :
    countAP (clean_parameters j) = 0 ∧
    removeAP (clean_parameters j) = (clean_parameters j, 0) ∧
    clean_parameters (clean_parameters j) = clean_parameters j ∧
    (noNestedAP j = true → (removeAP j).2 = countAP j) := by
  have hclean : countAP (clean_parameters j) = 0 := removeAP_clean j
  have hidem : removeAP (clean_parameters j) = (clean_parameters j, 0) :=
    removeAP_of_clean _ hclean
  refine ⟨hclean, hidem, ?_, fun h => removeAP_count_eq j h⟩
  show (removeAP (clean_parameters j)).1 = clean_parameters j
  rw [hidem]

theorem C7_clean_parameters_witness :
    noNestedAP apWitnessSchema = true ∧
    (removeAP apWitnessSchema).2 = countAP apWitnessSchema ∧
    countAP apWitnessSchema = 3 := by
  refine ⟨rfl, ?_, rfl⟩
  exact (C7_clean_parameters apWitnessSchema).2.2.2 rfl

/-- C1 (counterexample): the claim says `found` equals the number of
candidate paths whose final status lies in {200, 201, 204, 301, 302, 307,
308}.  A single candidate whose HEAD request answers 304 (no GET fallback,
since 304 < 400 and 304 ≠ 405) is counted by the code (`found = 1`,
because 304 < 400) yet its status is outside that set (set count 0). -/
theorem C1_found_counterexample :
    (discover_api_endpoints [ProbeOutcome.mk (some (HeadResponse.mk 304 "" 0)) none]).found = 1 ∧
    ((discover_api_endpoints [ProbeOutcome.mk (some (HeadResponse.mk 304 "" 0)) none]).results.filter
        (fun r => specFoundStatus r.statusCode)).length = 0 := by
  constructor
  · rfl
  · rfl

/-- C1 (amended): the `found` count returned by `discover_api_endpoints`
equals the number of candidate paths whose final response status (after
the HEAD-then-GET fallback) is strictly below 400; every status in
{200, 201, 204, 301, 302, 307, 308} is below 400, so the paths the spec
counts are a subset of those the code counts. -/
theorem C1_found_counts_sub400 (outcomes : List ProbeOutcome) :
    (discover_api_endpoints outcomes).found
        = outcomes.countP
            (fun o => ((probeEndpoint o).map (fun r => decide (r.statusCode < 400))).getD false) ∧
    ((discover_api_endpoints outcomes).results.filter
        (fun r => specFoundStatus r.statusCode)).length
      ≤ (discover_api_endpoints outcomes).found := by
  constructor
  · exact length_filter_filterMap probeEndpoint _ outcomes
  · show ((outcomes.filterMap probeEndpoint).filter _).length
        ≤ ((outcomes.filterMap probeEndpoint).filter _).length
    rw [← List.countP_eq_length_filter, ← List.countP_eq_length_filter]
    apply List.countP_mono_left
    intro r _ hr
    simp only [specFoundStatus, decide_eq_true_eq] at hr
    simp only [decide_eq_true_eq]
    omega

/-- C2 (counterexample): the claim says each of the four teardown steps of
`close()` is best-effort, so a failure in the page step must not prevent
the context/browser/driver steps.  In the code an exception from
`page.close()` propagates: with all four handles present and the page
teardown raising, only the page step is attempted. -/
theorem C2_close_counterexample :
    close (BrowserHandles.mk true true true true)
        (fun s => decide (s = TeardownStep.page))
      = ([TeardownStep.page], true) ∧
    TeardownStep.browserContext ∉
      (close (BrowserHandles.mk true true true true)
        (fun s => decide (s = TeardownStep.page))).1 := by
  constructor
  · rfl
  · decide

/-- C2 (amended): `close()` attempts the teardown steps strictly in the
order page → context → browser engine → underlying driver, restricted to
the present handles, but the steps are not best-effort: the first step
that raises aborts `close()` and the remaining steps are never attempted;
when no step raises, every present handle is torn down in that order. -/
theorem C2_close_order : ∀ (h : BrowserHandles) (fails : TeardownStep → Bool),
    close h fails = runTeardown fails (teardownOrder h) ∧
    ((∀ s, fails s = false) → close h fails = (teardownOrder h, false)) := by
  decide

theorem C2_close_order_witness :
    close (BrowserHandles.mk true true true true) (fun _ => false)
      = ([TeardownStep.page, TeardownStep.browserContext,
          TeardownStep.browserEngine, TeardownStep.playwrightDriver], false) := by
  have h := (C2_close_order (BrowserHandles.mk true true true true) (fun _ => false)).2
    (fun _ => rfl)
  rw [h]
  rfl

/-- C3: the advanced report's severity banding maps 0 to Safe ("安全"/"OK"),
1 through 3 to Low ("低危"/"LOW"), 4 through 10 to Medium ("中危"/"MED"),
and counts above 10 to High ("高危"/"HIGH"); in particular 0, 2, 3, 4, 10,
11 map respectively to Safe, Low, Low, Medium, Medium, High. -/
theorem C3_severity_banding (count : Int) (hnonneg : 0 ≤ count) :
    (count = 0 → getSeverityInfo count = ("安全", "#28a745", "OK")) ∧
    (1 ≤ count → count ≤ 3 → getSeverityInfo count = ("低危", "#ffc107", "LOW")) ∧
    (4 ≤ count → count ≤ 10 → getSeverityInfo count = ("中危", "#fd7e14", "MED")) ∧
    (10 < count → getSeverityInfo count = ("高危", "#dc3545", "HIGH")) ∧
    (getSeverityInfo 0 = ("安全", "#28a745", "OK") ∧
      getSeverityInfo 2 = ("低危", "#ffc107", "LOW") ∧
      getSeverityInfo 3 = ("低危", "#ffc107", "LOW") ∧
      getSeverityInfo 4 = ("中危", "#fd7e14", "MED") ∧
      getSeverityInfo 10 = ("中危", "#fd7e14", "MED") ∧
      getSeverityInfo 11 = ("高危", "#dc3545", "HIGH")) := by
  refine ⟨?_, ?_, ?_, ?_, rfl, rfl, rfl, rfl, rfl, rfl⟩
  · intro h0
    subst h0
    rfl
  · intro h1 h3
    unfold getSeverityInfo
    rw [if_neg (by omega), if_pos h3]
  · intro h4 h10
    unfold getSeverityInfo
    rw [if_neg (by omega), if_neg (by omega), if_pos h10]
  · intro hgt
    unfold getSeverityInfo
    rw [if_neg (by omega), if_neg (by omega), if_neg (by omega)]

theorem C3_severity_banding_witness :
    (0 : Int) ≤ 7 ∧ getSeverityInfo 7 = ("中危", "#fd7e14", "MED") :=
  ⟨by decide, (C3_severity_banding 7 (by decide)).2.2.1 (by decide) (by decide)⟩

/-- C4: `_add_to_cache` keeps each event cache a ring buffer: after N
insertions into an initially empty cache (cap 1000, no intervening
clear), the cache holds exactly the most recently inserted
min(N, 1000) items in insertion order, the oldest having been evicted
first. -/
theorem C4_cache_ring_buffer {α : Type} (items : List α) :
    fillCache maxCacheSize items = items.drop (items.length - 1000) ∧
    (fillCache maxCacheSize items).length = min items.length 1000 := by
  constructor
  · exact fillCache_eq_drop 1000 items
  · exact fillCache_length 1000 items

/-- C5: with a non-empty calibration record, `_should_filter` discards a
candidate response exactly when its status code equals the calibration
status code and its content length differs from the calibration content
length by strictly fewer than 50 bytes. -/
theorem C5_should_filter_iff (response : HttpResponse) (cal : CalibrationData) :
    shouldFilter response (some cal) = true ↔
      (response.statusCode = cal.statusCode ∧
        response.contentLength < cal.contentLength + 50 ∧
        cal.contentLength < response.contentLength + 50) := by
  simp only [shouldFilter]
  split
  · next hcond =>
    simp only [true_iff]
    obtain ⟨hs, hl⟩ := hcond
    refine ⟨hs, ?_, ?_⟩ <;> omega
  · next hcond =>
    constructor
    · intro hfalse
      exact absurd hfalse (by simp)
    · intro ⟨hs, hl1, hl2⟩
      exact absurd ⟨hs, by omega⟩ hcond

/-- C6: the IDOR sweep counts an id as accessible exactly when its request
returned status 200, and reports vulnerable iff strictly more than one
distinct id was accessible; exactly one accessible id yields
vulnerable = false.  (Ids in a range are pairwise distinct, embedded as a
Nodup hypothesis.) -/
theorem C6_idor_threshold (probes : List IdorProbe)
    (hnodup : (probes.map IdorProbe.testId).Nodup) :
    ((test_idor_vulnerability probes).accessibleCount
        = probes.countP (fun p => decide (p.statusCode = some 200))) ∧
    (idorAccessibleIds probes).Nodup ∧
    (∀ p ∈ probes, (p.testId ∈ idorAccessibleIds probes ↔ p.statusCode = some 200)) ∧
    ((test_idor_vulnerability probes).vulnerable = true ↔
        1 < (idorAccessibleIds probes).length) ∧
    ((idorAccessibleIds probes).length = 1 →
        (test_idor_vulnerability probes).vulnerable = false) := by
  have key := idorAccessibleIds_eq_map_filter probes
  refine ⟨?_, ?_, ?_, ?_, ?_⟩
  · show (idorAccessibleIds probes).length = _
    rw [key, List.length_map, ← List.countP_eq_length_filter]
  · rw [key]
    have hsub : List.Sublist
        ((probes.filter (fun p => decide (p.statusCode = some 200))).map IdorProbe.testId)
        (probes.map IdorProbe.testId) :=
      List.Sublist.map IdorProbe.testId (List.filter_sublist probes)
    exact List.Sublist.nodup hsub hnodup
  · intro p hp
    constructor
    · intro hmem
      rw [key] at hmem
      obtain ⟨q, hq, hid⟩ := List.mem_map.mp hmem
      obtain ⟨hqmem, hq200⟩ := List.mem_filter.mp hq
      have hqp : q = p := List.inj_on_of_nodup_map hnodup hqmem hp hid
      subst hqp
      simpa using hq200
    · intro h200
      rw [key]
      exact List.mem_map.mpr ⟨p, List.mem_filter.mpr ⟨hp, by simp [h200]⟩, rfl⟩
  · show decide (1 < (idorAccessibleIds probes).length) = true ↔ _
    exact decide_eq_true_iff
  · intro h1
    show decide (1 < (idorAccessibleIds probes).length) = false
    rw [h1]
    rfl

theorem C6_idor_threshold_witness :
    (([IdorProbe.mk 1 (some 200) 10, IdorProbe.mk 2 (some 403) 10].map IdorProbe.testId).Nodup) ∧
    (test_idor_vulnerability
        [IdorProbe.mk 1 (some 200) 10, IdorProbe.mk 2 (some 403) 10]).vulnerable = false := by
  refine ⟨by decide, ?_⟩
  exact (C6_idor_threshold _ (by decide)).2.2.2.2 (by decide)

/-- C9: when all three calibration probes raise, `_auto_calibrate` returns
the empty record (no exception escapes, each is swallowed per-probe), and
`_should_filter` with an empty calibration record never discards a
response — the scan degrades to unfiltered recording. -/
theorem C9_unreachable_calibration (probes : List (Option CalResponse))
    (response : HttpResponse) (hall : ∀ o ∈ probes, o = none) :
    autoCalibrate probes = none ∧
    shouldFilter response (autoCalibrate probes) = false := by
  have hfm : probes.filterMap (fun o =>
      o.map (fun r => CalResponse.mk r.statusCode r.contentLength (r.text.take 500))) = [] := by
    induction probes with
    | nil => rfl
    | cons x xs ih =>
      have hx : x = none := hall x (List.mem_cons_self x xs)
      subst hx
      rw [List.filterMap_cons]
      exact ih (fun o ho => hall o (List.mem_cons_of_mem _ ho))
  have hnone : autoCalibrate probes = none := by
    simp only [autoCalibrate, hfm]
  refine ⟨hnone, ?_⟩
  rw [hnone]
  rfl

theorem C9_unreachable_calibration_witness :
    (∀ o ∈ ([none, none, none] : List (Option CalResponse)), o = none) ∧
    autoCalibrate ([none, none, none] : List (Option CalResponse)) = none ∧
    shouldFilter (HttpResponse.mk 404 1234)
      (autoCalibrate ([none, none, none] : List (Option CalResponse))) = false := by
  refine ⟨by simp, ?_⟩
  exact C9_unreachable_calibration [none, none, none] (HttpResponse.mk 404 1234) (by simp)

/-- C10: the IDOR report truncates `accessible_ids` and `results` to the
first 20 entries while `accessible_count`, `vulnerable` and `severity` are
computed from the full untruncated sweep; with more than 20 accessible
ids, `accessible_count` exceeds the length of the returned
`accessible_ids` list. -/
theorem C10_idor_truncation (probes : List IdorProbe) :
    (test_idor_vulnerability probes).accessibleIds = (idorAccessibleIds probes).take 20 ∧
    (test_idor_vulnerability probes).results = (idorResults probes).take 20 ∧
    (test_idor_vulnerability probes).accessibleCount = (idorAccessibleIds probes).length ∧
    (test_idor_vulnerability probes).vulnerable
        = decide (1 < (idorAccessibleIds probes).length) ∧
    (test_idor_vulnerability probes).severity
        = (if 1 < (idorAccessibleIds probes).length then "高" else "无") ∧
    (20 < (idorAccessibleIds probes).length →
        (test_idor_vulnerability probes).accessibleIds.length
          < (test_idor_vulnerability probes).accessibleCount) := by
  refine ⟨rfl, rfl, rfl, rfl, ?_, ?_⟩
  · by_cases hlt : 1 < (idorAccessibleIds probes).length
    · simp [test_idor_vulnerability, hlt]
    · simp [test_idor_vulnerability, hlt]
  · intro h20
    show ((idorAccessibleIds probes).take 20).length < (idorAccessibleIds probes).length
    rw [List.length_take]
    omega

theorem C10_idor_truncation_witness :
    20 < (idorAccessibleIds idorManyProbes).length ∧
    (test_idor_vulnerability idorManyProbes).accessibleIds.length
      < (test_idor_vulnerability idorManyProbes).accessibleCount := by
  refine ⟨by decide, ?_⟩
  exact (C10_idor_truncation idorManyProbes).2.2.2.2.2 (by decide)

end LsjWebsec
